import Mathlib

/-!
Verification of the tgcf synchronization core against its specification.

This file gives a shallow embedding, in Lean 4, of the parts of the tgcf
repository that the frozen claims C1..C10 talk about:

* `TgcfMessage` and the transform pipeline (src/tgcf/plugins/__init__.py),
* `AlbumBuffer` (src/tgcf/utils.py lines 28-72, duplicated in
  src/tgcf/past.py lines 24-68),
* the tracking store and its pruning (src/tgcf/context.py),
* the live edited-message handler (src/tgcf/live.py lines 118-155),
* the peer resolver (src/tgcf/config.py, get_id and load_from_to),
* the past-mode replay loop (src/tgcf/past.py, forward_job),
* the album-flush debounce timer discipline (src/tgcf/live.py lines 41-61
  and 93-99).

Python mutable state is embedded as explicit state passing; Python dicts
(which preserve insertion order) are embedded as association lists in
insertion order; exceptions are embedded as Except / explicit outcome
values; network calls are embedded through outcome oracles supplied as
parameters.  Each definition is translated from the source file it names.
-/

namespace Tgcf

/-- Association-list lookup, modelling Python `dict.get` /
`dict[k]` on an insertion-ordered dict whose pairs are `(key, value)`. -/
def lookupA {α : Type} [DecidableEq α] {β : Type} (l : List (α × β)) (k : α) :
    Option β :=
  match l with
  | [] => none
  | (k', v) :: rest => if k' = k then some v else lookupA rest k

/-- Association-list key removal, modelling Python `del d[k]`
(removing a missing key is a no-op here; the code guards with `in`). -/
def eraseA {α : Type} [DecidableEq α] {β : Type} :
    List (α × β) → α → List (α × β)
  | [], _ => []
  | p :: rest, k => if p.1 = k then eraseA rest k else p :: eraseA rest k

/-- Association-list update, modelling Python `d[k] = v`.  Lookup order is
all that matters to the embedded code, so we place the updated binding in
front and drop any stale binding for the same key. -/
def insertA {α : Type} [DecidableEq α] {β : Type} (l : List (α × β)) (k : α)
    (v : β) : List (α × β) :=
  (k, v) :: eraseA l k

theorem lookupA_eraseA_ne {α : Type} [DecidableEq α] {β : Type}
    (l : List (α × β)) (k k' : α) (h : k ≠ k') :
    lookupA (eraseA l k) k' = lookupA l k' := by
  induction l with
  | nil => rfl
  | cons p rest ih =>
    by_cases hp : p.1 = k
    · rw [eraseA, if_pos hp, ih, lookupA, if_neg (hp ▸ h : ¬p.1 = k')]
    · rw [eraseA, if_neg hp]
      by_cases hk : p.1 = k'
      · rw [lookupA, if_pos hk, lookupA, if_pos hk]
      · rw [lookupA, if_neg hk, lookupA, if_neg hk, ih]

theorem lookupA_insertA_self {α : Type} [DecidableEq α] {β : Type}
    (l : List (α × β)) (k : α) (v : β) : lookupA (insertA l k v) k = some v := by
  simp [insertA, lookupA]

theorem lookupA_insertA_ne {α : Type} [DecidableEq α] {β : Type}
    (l : List (α × β)) (k k' : α) (v : β) (h : k ≠ k') :
    lookupA (insertA l k v) k' = lookupA l k' := by
  rw [insertA, lookupA, if_neg h, lookupA_eraseA_ne l k k' h]

/-- Python truthiness of an optional string (`if self.new_file and ...`):
`None` and the empty string are falsy. -/
def pyTruthyStr : Option String → Bool
  | none => false
  | some s => !s.isEmpty

/-- Model of `TgcfMessage` (src/tgcf/plugins/__init__.py lines 20-50):
the derived mutable view of a raw source message that flows through the
transform pipeline.  We keep the fields the claims depend on; the wrapped
raw message's identity and group id are inlined. -/
structure TgcfMessage where
  chat_id : Int
  msg_id : Int
  grouped_id : Option Int
  text : Option String
  new_file : Option String
  cleanup : Bool
  deriving DecidableEq, Repr

/-- Model of `TgcfMessage.clear` (plugins/__init__.py lines 47-50):
`if self.new_file and self.cleanup: cleanup(self.new_file); self.new_file
= None`.  Returns the new message state together with the list of staged
files deleted (the side effect of `cleanup`). -/
def TgcfMessage.clear (tm : TgcfMessage) : TgcfMessage × List String :=
  if pyTruthyStr tm.new_file && tm.cleanup then
    ({ tm with new_file := none }, tm.new_file.toList)
  else
    (tm, [])

/-- Files deleted by `tm.clear()`. -/
def TgcfMessage.cleared_files (tm : TgcfMessage) : List String :=
  tm.clear.2

/-- Model of `AlbumBuffer` (src/tgcf/utils.py lines 28-72; the identical
class also appears in src/tgcf/past.py lines 24-68): the per-source-chat
state machine grouping consecutive messages that share a `grouped_id`. -/
structure AlbumBuffer where
  messages : List TgcfMessage
  current_group_id : Option Int
  deriving DecidableEq, Repr

/-- The freshly constructed buffer (`__init__`). -/
def AlbumBuffer.init : AlbumBuffer :=
  { messages := [], current_group_id := none }

/-- Model of `AlbumBuffer.add_message` (utils.py lines 35-38):
append and remember the message's group id. -/
def AlbumBuffer.add_message (b : AlbumBuffer) (tm : TgcfMessage) : AlbumBuffer :=
  { messages := b.messages ++ [tm], current_group_id := tm.grouped_id }

/-- Model of `AlbumBuffer.should_flush` (utils.py lines 40-53):
false when the buffer is empty or its group id is `None`; otherwise true
iff the next group id differs from the current one. -/
def AlbumBuffer.should_flush (b : AlbumBuffer) (next_grouped_id : Option Int) :
    Bool :=
  if b.messages.isEmpty then false
  else
    match b.current_group_id with
    | none => false
    | some g => decide (next_grouped_id ≠ some g)

/-- Model of `AlbumBuffer.is_album` (utils.py lines 55-57). -/
def AlbumBuffer.is_album (b : AlbumBuffer) : Bool :=
  decide (b.messages.length > 1)

/-- Model of `AlbumBuffer.is_empty` (utils.py lines 59-61). -/
def AlbumBuffer.is_empty (b : AlbumBuffer) : Bool :=
  b.messages.isEmpty

/-- Model of `AlbumBuffer.clear` (utils.py lines 63-68): call `tm.clear()`
on every buffered message, then empty the list and forget the group id.
Returns the new buffer state and the staged files deleted. -/
def AlbumBuffer.clear (b : AlbumBuffer) : AlbumBuffer × List String :=
  (AlbumBuffer.init, b.messages.foldr (fun tm acc => tm.cleared_files ++ acc) [])

/-- Model of `AlbumBuffer.get_messages` (utils.py lines 70-72). -/
def AlbumBuffer.get_messages (b : AlbumBuffer) : List TgcfMessage :=
  b.messages

/-- The spec's `flush()` operation: the flush call sites
(`_flush_album` in live.py, `process_buffered_messages` in past.py) read
`get_messages()` and then call `clear()`.  Returns (released sequence,
buffer afterwards, staged files deleted). -/
def AlbumBuffer.flush (b : AlbumBuffer) :
    List TgcfMessage × AlbumBuffer × List String :=
  (b.get_messages, b.clear.1, b.clear.2)

/-- EventUid: `(source_chat_id, source_message_id)`. -/
abbrev EventUid := Int × Int

/-- One tracking entry: destination chat id to destination message id, in
insertion order (a Python dict). -/
abbrev DestMap := List (Int × Int)

/-- The tracking store `ctx.stored : dict[tuple[int, int], dict[int, int]]`
(src/tgcf/context.py line 26), as an insertion-ordered association list. -/
abbrev Stored := List (EventUid × DestMap)

/-- Model of `TgcfContext.prune_stored` (src/tgcf/context.py lines 32-38):
`while len(self.stored) > keep_last: self.stored.pop(next(iter(self.stored)))`.
`next(iter(d))` on an insertion-ordered dict is the first-inserted key, so
each loop iteration removes the head of the association list. -/
def prune_stored (keep_last : Nat) : Stored → Stored
  | [] => []
  | x :: rest =>
    if rest.length + 1 > keep_last then prune_stored keep_last rest
    else x :: rest

/-- Outcome of one pipeline stage's `modify` on a message
(plugins/__init__.py lines 150-168): it may return a transformed message,
return `None` to filter the message, or raise. -/
inductive PluginResult where
  | ok (tm : TgcfMessage)
  | filtered
  | raised
  deriving DecidableEq

/-- A pipeline stage, abstracted over its configured behaviour. -/
abbrev Plugin := TgcfMessage → PluginResult

/-- Model of `apply_plugins` (src/tgcf/plugins/__init__.py lines 138-169):
run the stages in configured order on the accumulated message; a `None`
result clears the accumulated message and returns `None` (drop); a raising
stage is caught, logged and skipped, leaving the message unchanged.
Returns the surviving message (or `none`) and the staged files deleted by
the `tm.clear()` on the drop path. -/
def apply_plugins : List Plugin → TgcfMessage → Option TgcfMessage × List String
  | [], tm => (some tm, [])
  | p :: rest, tm =>
    match p tm with
    | .ok new_tm => apply_plugins rest new_tm
    | .filtered => (none, tm.cleared_files)
    | .raised => apply_plugins rest tm

/-! ## Live edited-message handler (src/tgcf/live.py lines 118-155) -/

/-- One externally visible action issued by the edited-message handler:
an `edit` of a destination copy, a `delete` of a destination copy
(`msg.delete()`), a `delete` of the source message (`message.delete()`),
or a brand-new send to a destination (`send_message(d, tm, ...)`). -/
inductive EditAction where
  | edit (dest_chat dest_msg : Int) (new_text : Option String)
  | delete_dest (dest_chat dest_msg : Int)
  | delete_source
  | send_new (dest : Int)
  deriving DecidableEq, Repr

/-- Model of the handler produced by `make_edited_message_handler`
(src/tgcf/live.py lines 118-155), returning the list of transport actions
it issues, in order.  `from_to` is the resolved routing table,
`stored` the tracking store, `delete_on_edit` the configured marker
(`ctx.config.live.delete_on_edit : Optional[str]`), `plugins` the
configured pipeline, and `message` the edited message (whose `.text` is
the new raw text).  Mirrors the source exactly:
the chat must be watched; the pipeline runs first and a drop ends
processing; `ctx.stored.get(event_uid)` is then tested for Python
truthiness (`if fwded_msgs:`), so a missing entry AND an empty entry both
take the send-as-new branch; in the truthy branch, for each tracked copy
the marker is compared with `message.text` and either both copies are
deleted (`msg.delete(); message.delete()`) or the copy is edited to
`tm.text`. -/
def edited_message_handler (from_to : List (Int × List Int)) (stored : Stored)
    (delete_on_edit : Option String) (plugins : List Plugin)
    (message : TgcfMessage) : List EditAction :=
  match lookupA from_to message.chat_id with
  | none => []
  | some dest =>
    match (apply_plugins plugins message).1 with
    | none => []
    | some tm =>
      match lookupA stored (message.chat_id, message.msg_id) with
      | some fwded_msgs =>
        if fwded_msgs.isEmpty then
          -- `if fwded_msgs:` is false for the empty dict: send as new
          dest.map EditAction.send_new
        else
          fwded_msgs.flatMap (fun dm =>
            if delete_on_edit = message.text then
              [EditAction.delete_dest dm.1 dm.2, EditAction.delete_source]
            else
              [EditAction.edit dm.1 dm.2 tm.text])
      | none => dest.map EditAction.send_new

/-- Number of `edit` calls in an action list. -/
def countEdits (acts : List EditAction) : Nat :=
  acts.countP (fun a => match a with | .edit _ _ _ => true | _ => false)

/-- Number of new-message sends in an action list. -/
def countSendNew (acts : List EditAction) : Nat :=
  acts.countP (fun a => match a with | .send_new _ => true | _ => false)

/-- Number of deletions of the source message in an action list. -/
def countSourceDeletes (acts : List EditAction) : Nat :=
  acts.countP (fun a => match a with | .delete_source => true | _ => false)

/-- Number of deletions of destination copies in an action list. -/
def countDestDeletes (acts : List EditAction) : Nat :=
  acts.countP (fun a => match a with | .delete_dest _ _ => true | _ => false)

/-! ## Peer resolver (src/tgcf/config.py lines 172-223) -/

/-- A configured peer reference: `Union[int, str]`. -/
inductive Peer where
  | i (n : Int)
  | s (str : String)
  deriving DecidableEq, Repr

/-- Model of a `Forward` rule (config.py lines 30-39), restricted to the
fields `load_from_to` and `forward_job` read. -/
structure Forward where
  use_this : Bool
  source : Peer
  dest : List Peer
  offset : Int
  end_id : Option Int
  deriving DecidableEq, Repr

/-- Python `peer.lstrip('-').isdigit()`: strip every leading minus sign,
then require a nonempty all-digit remainder. -/
def is_numeric_string (s : String) : Bool :=
  let t := s.toList.dropWhile (fun c => c = '-')
  !t.isEmpty && t.all Char.isDigit

/-- Model of `get_id` (src/tgcf/config.py lines 172-187).  The external
entity lookup is abstracted as `resolve`; `none` models
`client.get_entity` raising.  Any failure is logged and re-raised
(`raise` at line 187), which we model as `Except.error` carrying the
offending reference. -/
def get_id (resolve : String → Option Int) : Peer → Except String Int
  | .i n => .ok n
  | .s str =>
    if is_numeric_string str then
      -- `int(peer)`: a numeric-looking string that `int` still rejects
      -- (e.g. repeated minus signs) raises inside the try block
      match str.toInt? with
      | some n => .ok n
      | none => .error str
    else
      match resolve str with
      | some entity_id => .ok entity_id
      | none => .error str

/-- Python `not isinstance(source, int) and source.strip() == ""`
(config.py line 218): a string source is blank exactly when stripping all
whitespace leaves nothing, i.e. every character is whitespace. -/
def source_is_blank : Peer → Bool
  | .i _ => false
  | .s str => str.toList.all (fun c => c.isWhitespace)

/-- Model of the loop body of `load_from_to` (src/tgcf/config.py lines
190-223), with the accumulated `from_to_dict` passed explicitly.  A rule
with `use_this = False` or a blank string source is skipped; otherwise the
source and every destination are resolved with `get_id`, and any
resolution failure propagates (there is no try/except around the loop
body), aborting the whole call. -/
def load_from_to_go (resolve : String → Option Int) :
    List Forward → List (Int × List Int) →
    Except String (List (Int × List Int))
  | [], acc => .ok acc
  | forward :: rest, acc =>
    if !forward.use_this then load_from_to_go resolve rest acc
    else if source_is_blank forward.source then load_from_to_go resolve rest acc
    else
      match get_id resolve forward.source with
      | .error e => .error e
      | .ok src =>
        match forward.dest.mapM (get_id resolve) with
        | .error e => .error e
        | .ok ds => load_from_to_go resolve rest (insertA acc src ds)

/-- Model of `load_from_to` (src/tgcf/config.py lines 190-223). -/
def load_from_to (resolve : String → Option Int) (forwards : List Forward) :
    Except String (List (Int × List Int)) :=
  load_from_to_go resolve forwards []

/-! ## Past-mode replay (src/tgcf/past.py) -/

/-- Outcome of one `send_message(dest, tm)` transport call:
success with the new destination message id, a `FloodWaitError` carrying
the server-imposed wait in seconds, or any other exception. -/
inductive SendOutcome where
  | ok (msg_id : Int)
  | flood (seconds : Nat)
  | err
  deriving DecidableEq, Repr

/-- One raw message yielded by `client.iter_messages`.  `service` marks a
`MessageService` entry; `dropped` records that `apply_plugins` returns
`None` for this message (the pipeline filters it). -/
structure PastMsg where
  id : Int
  service : Bool
  grouped_id : Option Int
  dropped : Bool
  deriving DecidableEq, Repr

/-- Outcome oracles for the transport calls made during replay:
`send msg_id dest` for `send_message`, and `forward_batch msg_ids dest`
for `client.forward_messages` on an album (`none` models the call
raising). -/
structure TransportEnv where
  send : Int → Int → SendOutcome
  forward_batch : List Int → Int → Option (List Int)

/-- Model of past.py's own `AlbumBuffer` class (src/tgcf/past.py lines
24-68, a duplicate of the one in utils.py), holding the wrapped messages
of the album currently being accumulated for one rule. -/
structure PastAlbumBuffer where
  messages : List PastMsg
  current_group_id : Option Int
  deriving DecidableEq, Repr

/-- The freshly constructed buffer (past.py lines 27-29). -/
def PastAlbumBuffer.init : PastAlbumBuffer :=
  { messages := [], current_group_id := none }

/-- past.py lines 31-34. -/
def PastAlbumBuffer.add_message (b : PastAlbumBuffer) (tm : PastMsg) :
    PastAlbumBuffer :=
  { messages := b.messages ++ [tm], current_group_id := tm.grouped_id }

/-- past.py lines 36-49. -/
def PastAlbumBuffer.should_flush (b : PastAlbumBuffer)
    (next_grouped_id : Option Int) : Bool :=
  if b.messages.isEmpty then false
  else
    match b.current_group_id with
    | none => false
    | some g => decide (next_grouped_id ≠ some g)

/-- past.py lines 51-53. -/
def PastAlbumBuffer.is_album (b : PastAlbumBuffer) : Bool :=
  decide (b.messages.length > 1)

/-- past.py lines 55-57. -/
def PastAlbumBuffer.is_empty (b : PastAlbumBuffer) : Bool :=
  b.messages.isEmpty

/-- past.py lines 66-68. -/
def PastAlbumBuffer.get_messages (b : PastAlbumBuffer) : List PastMsg :=
  b.messages

/-- The body of the per-destination loop of `forward_single_message`
(past.py lines 126-131): on success record
`st.stored[event_uid][dest] = fwded_msg.id`; on ANY exception
(`except Exception`, line 130) - `FloodWaitError` included - log and leave
the store untouched for this destination. -/
def forward_single_message_step (env : TransportEnv) (event_uid : EventUid)
    (tm_id : Int) (st : Stored) (dest : Int) : Stored :=
  match env.send tm_id dest with
  | .ok fwded_id =>
    insertA st event_uid (insertA ((lookupA st event_uid).getD []) dest fwded_id)
  | .flood _ => st
  | .err => st

/-- Model of past.py's `forward_single_message` (lines 111-131) for chat
`chat`: ensure a (possibly empty) tracking entry exists, then try each
destination with `forward_single_message_step`.  No exception propagates
to the caller. -/
def forward_single_message (env : TransportEnv) (chat : Int) (tm : PastMsg)
    (destinations : List Int) (stored : Stored) : Stored :=
  let event_uid : EventUid := (chat, tm.id)
  let st0 := if (lookupA stored event_uid).isNone
             then insertA stored event_uid [] else stored
  destinations.foldl (forward_single_message_step env event_uid tm.id) st0

/-- Model of past.py's `forward_album` (lines 71-108): forward the whole
batch to each destination, recording one tracking pair per album member on
success; any exception for a destination (line 107) is logged and that
destination skipped. -/
def forward_album (env : TransportEnv) (chat : Int)
    (album : PastAlbumBuffer) (destinations : List Int) (stored : Stored) :
    Stored :=
  let messages := album.get_messages
  if messages.isEmpty then stored
  else
    let message_ids := messages.map (fun tm => tm.id)
    destinations.foldl (fun st dest =>
      match env.forward_batch message_ids dest with
      | some forwarded =>
        (messages.zip forwarded).foldl (fun st2 pair =>
          let event_uid : EventUid := (chat, pair.1.id)
          let entry := (lookupA st2 event_uid).getD []
          insertA st2 event_uid (insertA entry dest pair.2)) st
      | none => st) stored

/-- Model of `process_buffered_messages` (past.py lines 154-176): flush
the buffer, forwarding it as one album when it holds several messages and
as a single message otherwise (`handle_reply_to` only mutates the
in-flight message's reply field and leaves all state modelled here
unchanged).  Returns the updated store, the cleared buffer, and the units
forwarded (each unit is the list of source ids it covers). -/
def process_buffered_messages (env : TransportEnv) (chat : Int)
    (destinations : List Int) (album_buffer : PastAlbumBuffer)
    (stored : Stored) : Stored × PastAlbumBuffer × List (List Int) :=
  if album_buffer.is_empty then (stored, album_buffer, [])
  else if album_buffer.is_album then
    (forward_album env chat album_buffer destinations stored,
     PastAlbumBuffer.init,
     [album_buffer.get_messages.map (fun tm => tm.id)])
  else
    match album_buffer.get_messages with
    | [] => (stored, PastAlbumBuffer.init, [])
    | tm :: _ =>
      (forward_single_message env chat tm destinations stored,
       PastAlbumBuffer.init, [[tm.id]])

/-- Python truthiness of `forward.end : Optional[int]`:
`None` and `0` are falsy. -/
def end_truthy : Option Int → Bool
  | none => false
  | some e => decide (e ≠ 0)

/-- The integer value of the end bound (only read when truthy). -/
def end_val (end_id : Option Int) : Int :=
  end_id.getD 0

/-- The per-rule loop state of `forward_job` (past.py lines 202-256).
`last_id` and `offset` mirror the Python variables; `offset_trace` records
every value persisted by `write_config` in order; `forwarded_units` the
units actually transmitted; `sleeps` the durations of
`asyncio.sleep` calls made by the `except FloodWaitError` arm (lines
249-251); `processed` the source ids that reached the
"Update tracking" block (lines 239-243). -/
structure LoopState where
  last_id : Int
  offset : Int
  offset_trace : List Int
  stored : Stored
  buffer : PastAlbumBuffer
  forwarded_units : List (List Int)
  sleeps : List Nat
  processed : List Int
  deriving Repr

/-- Loop state on entry to a rule's replay (past.py lines 203-204:
`last_id = 0; album_buffer = AlbumBuffer()`); `offset` starts at the
rule's configured offset. -/
def LoopState.start (offset0 : Int) : LoopState :=
  { last_id := 0, offset := offset0, offset_trace := [], stored := [],
    buffer := PastAlbumBuffer.init, forwarded_units := [], sleeps := [],
    processed := [] }

/-- Model of one iteration of the `async for message` body of
`forward_job` (past.py lines 208-253).  In source order: the end-bound
guard compares `last_id` (the PREVIOUS processed id) against
`forward.end`; service messages are skipped; the pipeline may drop the
message; a group change flushes the buffer; a grouped message is buffered
while a standalone one is forwarded immediately; finally `last_id`,
`forward.offset` and the persisted config are updated to the current
message id.  The `except FloodWaitError` arm (lines 249-251) would append
to `sleeps` and continue with the NEXT message, but the helpers called in
the try block catch every exception internally (past.py lines 107-108 and
130-131), so no step of this model appends to `sleeps`. -/
def past_step (env : TransportEnv) (chat : Int) (destinations : List Int)
    (end_id : Option Int) (s : LoopState) (m : PastMsg) : LoopState :=
  if end_truthy end_id && decide (s.last_id > end_val end_id) then s
  else if m.service then s
  else if m.dropped then s
  else
    let s1 :=
      if s.buffer.should_flush m.grouped_id then
        let r := process_buffered_messages env chat destinations s.buffer s.stored
        { s with stored := r.1, buffer := r.2.1,
                 forwarded_units := s.forwarded_units ++ r.2.2 }
      else s
    match m.grouped_id with
    | some _ =>
      { s1 with buffer := s1.buffer.add_message m,
                last_id := m.id, offset := m.id,
                offset_trace := s1.offset_trace ++ [m.id],
                processed := s1.processed ++ [m.id] }
    | none =>
      { s1 with stored := forward_single_message env chat m destinations s1.stored,
                forwarded_units := s1.forwarded_units ++ [[m.id]],
                last_id := m.id, offset := m.id,
                offset_trace := s1.offset_trace ++ [m.id],
                processed := s1.processed ++ [m.id] }

/-- Model of one rule's replay in `forward_job` (past.py lines 201-258):
fold the loop body over the history stream, then flush any remaining
buffered album (line 256). -/
def forward_job_rule (env : TransportEnv) (chat : Int)
    (destinations : List Int) (end_id : Option Int) (offset0 : Int)
    (history : List PastMsg) : LoopState :=
  let s := history.foldl (past_step env chat destinations end_id)
    (LoopState.start offset0)
  let r := process_buffered_messages env chat destinations s.buffer s.stored
  { s with stored := r.1, buffer := r.2.1,
           forwarded_units := s.forwarded_units ++ r.2.2 }

/-- Modelled from the amended claim C4: the ids a rule's replay processes.
Walking the history with `prev` the id of the last processed message
(initially 0), a message is skipped once `prev` exceeds a truthy end
bound, service and pipeline-dropped messages are skipped without touching
`prev`, and every other message is processed and becomes the new `prev`.
This is the spec-level characterization compared against
`forward_job_rule`. -/
def spec_processed (end_id : Option Int) (prev : Int) :
    List PastMsg → List Int
  | [] => []
  | m :: rest =>
    if end_truthy end_id && decide (prev > end_val end_id) then
      spec_processed end_id prev rest
    else if m.service || m.dropped then spec_processed end_id prev rest
    else m.id :: spec_processed end_id m.id rest

/-- Companion to `spec_processed`: the value of `last_id` after walking
the history (the id of the last processed message, or `prev` when nothing
got processed). -/
def spec_last (end_id : Option Int) (prev : Int) : List PastMsg → Int
  | [] => prev
  | m :: rest =>
    if end_truthy end_id && decide (prev > end_val end_id) then
      spec_last end_id prev rest
    else if m.service || m.dropped then spec_last end_id prev rest
    else spec_last end_id m.id rest

/-! ## Album-flush debounce timers (src/tgcf/live.py lines 21-61, 93-99) -/

/-- State of the per-chat flush-timer machinery: `flush_tasks` is
`ctx.flush_tasks` (chat id to the stored task handle), `pending` the set
of armed timer tasks that are neither cancelled nor completed (as
(chat, task id) pairs in creation order), and `next_id` a counter
producing fresh task identities. -/
structure TimerSys where
  flush_tasks : List (Int × Nat)
  pending : List (Int × Nat)
  next_id : Nat
  deriving Repr

/-- No timers armed yet. -/
def TimerSys.start : TimerSys :=
  { flush_tasks := [], pending := [], next_id := 0 }

/-- The atomic program steps touching timer state, each a span of
src/tgcf/live.py containing no `await`:

* `arm c`: `_schedule_album_flush` (lines 41-61) - cancel the task handle
  stored for chat `c`, if any, then create a fresh timer task and store
  its handle;
* `cancel_pending c`: lines 96-97 of the new-message handler - cancel the
  stored handle before a forced flush (the table entry is NOT removed
  here);
* `flush_del c`: lines 37-38 at the end of `_flush_album` - delete chat
  `c`'s table entry, without cancelling whatever task it names (this runs
  after the `await` of the sends, so other tasks may have run in between);
* `fire c tid`: the armed task's `_timeout_wrapper` body completing after
  its sleep - the task leaves the pending set and `_flush_album` removes
  the table entry. -/
inductive TimerOp where
  | arm (chat : Int)
  | cancel_pending (chat : Int)
  | flush_del (chat : Int)
  | fire (chat : Int) (tid : Nat)
  deriving DecidableEq, Repr

/-- Cancel one task handle: it leaves the pending set. -/
def cancelTask (pending : List (Int × Nat)) (chat : Int) (tid : Nat) :
    List (Int × Nat) :=
  pending.filter (fun q => !(decide (q.1 = chat) && decide (q.2 = tid)))

/-- One atomic step of the timer machinery. -/
def timer_step (s : TimerSys) : TimerOp → TimerSys
  | .arm chat =>
    let p := match lookupA s.flush_tasks chat with
      | some tid => cancelTask s.pending chat tid
      | none => s.pending
    { flush_tasks := insertA s.flush_tasks chat s.next_id,
      pending := p ++ [(chat, s.next_id)],
      next_id := s.next_id + 1 }
  | .cancel_pending chat =>
    match lookupA s.flush_tasks chat with
    | some tid => { s with pending := cancelTask s.pending chat tid }
    | none => s
  | .flush_del chat => { s with flush_tasks := eraseA s.flush_tasks chat }
  | .fire chat tid =>
    if (chat, tid) ∈ s.pending then
      { s with pending := cancelTask s.pending chat tid,
               flush_tasks := eraseA s.flush_tasks chat }
    else s

/-- A forced flush with no same-chat interleaving between its cancel
(lines 96-97) and its table-entry deletion (lines 37-38): the composite
the specification treats as one operation. -/
inductive CoarseTimerOp where
  | arm (chat : Int)
  | flush (chat : Int)
  | fire (chat : Int) (tid : Nat)
  deriving DecidableEq, Repr

/-- One coarse step: flushes run atomically. -/
def coarse_timer_step (s : TimerSys) : CoarseTimerOp → TimerSys
  | .arm chat => timer_step s (.arm chat)
  | .flush chat => timer_step (timer_step s (.cancel_pending chat)) (.flush_del chat)
  | .fire chat tid => timer_step s (.fire chat tid)

/-- Number of pending (armed, uncancelled, uncompleted) timers for one
chat. -/
def pendingCount (s : TimerSys) (chat : Int) : Nat :=
  s.pending.countP (fun q => decide (q.1 = chat))

/-! ## Theorems -/

theorem foldl_add_message_messages (tms : List TgcfMessage) (b : AlbumBuffer) :
    (tms.foldl AlbumBuffer.add_message b).messages = b.messages ++ tms := by
  induction tms generalizing b with
  | nil => simp
  | cons t ts ih =>
    simp [List.foldl, AlbumBuffer.add_message, ih]

/-- C5: adding a sequence of messages of one group to an empty
`AlbumBuffer` leaves the buffer holding exactly that sequence in arrival
order; flushing returns that sequence and resets the buffer to the empty
state; flushing the empty buffer returns the empty sequence, leaves the
empty state, and deletes no staged files (no side effects). -/
theorem album_buffer_sequence_flush (g : Int) (tms : List TgcfMessage)
    (b : AlbumBuffer)
    (hg : ∀ tm ∈ tms, tm.grouped_id = some g)
    (hb : b = tms.foldl AlbumBuffer.add_message AlbumBuffer.init) :
    b.get_messages = tms ∧
    b.flush.1 = tms ∧
    b.flush.2.1 = AlbumBuffer.init ∧
    AlbumBuffer.init.flush.1 = [] ∧
    AlbumBuffer.init.flush.2.1 = AlbumBuffer.init ∧
    AlbumBuffer.init.flush.2.2 = [] := by
  subst hb
  have hmsgs : (tms.foldl AlbumBuffer.add_message AlbumBuffer.init).messages = tms := by
    rw [foldl_add_message_messages]
    simp [AlbumBuffer.init]
  exact ⟨hmsgs, by simp [AlbumBuffer.flush, AlbumBuffer.get_messages, hmsgs],
    rfl, rfl, rfl, rfl⟩

/-- Witness for C5 at a concrete two-message album of group 7. -/
theorem album_buffer_sequence_flush_witness :
    (∀ tm ∈ [TgcfMessage.mk 1 10 (some 7) (some "a") none false,
             TgcfMessage.mk 1 11 (some 7) (some "b") none false],
        tm.grouped_id = some 7) ∧
    (([TgcfMessage.mk 1 10 (some 7) (some "a") none false,
       TgcfMessage.mk 1 11 (some 7) (some "b") none false].foldl
        AlbumBuffer.add_message AlbumBuffer.init).get_messages
      = [TgcfMessage.mk 1 10 (some 7) (some "a") none false,
         TgcfMessage.mk 1 11 (some 7) (some "b") none false] ∧
     ([TgcfMessage.mk 1 10 (some 7) (some "a") none false,
       TgcfMessage.mk 1 11 (some 7) (some "b") none false].foldl
        AlbumBuffer.add_message AlbumBuffer.init).flush.1
      = [TgcfMessage.mk 1 10 (some 7) (some "a") none false,
         TgcfMessage.mk 1 11 (some 7) (some "b") none false] ∧
     ([TgcfMessage.mk 1 10 (some 7) (some "a") none false,
       TgcfMessage.mk 1 11 (some 7) (some "b") none false].foldl
        AlbumBuffer.add_message AlbumBuffer.init).flush.2.1
      = AlbumBuffer.init ∧
     AlbumBuffer.init.flush.1 = [] ∧
     AlbumBuffer.init.flush.2.1 = AlbumBuffer.init ∧
     AlbumBuffer.init.flush.2.2 = []) :=
  ⟨by decide, by
    have h := album_buffer_sequence_flush 7
      [TgcfMessage.mk 1 10 (some 7) (some "a") none false,
       TgcfMessage.mk 1 11 (some 7) (some "b") none false]
      _ (by decide) rfl
    exact ⟨h.1, h.2.1, h.2.2.1, h.2.2.2.1, h.2.2.2.2.1, h.2.2.2.2.2⟩⟩

/-- C6: `should_flush next` is true exactly when the buffer holds
messages of some group (nonempty message list and a present group id) and
`next` differs from that group id, including when `next` is absent. -/
theorem should_flush_characterization (b : AlbumBuffer) (nxt : Option Int) :
    b.should_flush nxt = true ↔
      b.messages ≠ [] ∧ ∃ g, b.current_group_id = some g ∧ nxt ≠ some g := by
  rcases b with ⟨msgs, gid⟩
  cases msgs <;> cases gid <;>
    simp [AlbumBuffer.should_flush, List.isEmpty]

theorem prune_stored_drop (keep_last : Nat) (l : Stored) :
    prune_stored keep_last l = l.drop (l.length - keep_last) := by
  induction l with
  | nil => simp [prune_stored]
  | cons x rest ih =>
    by_cases h : rest.length + 1 > keep_last
    · rw [prune_stored, if_pos h, ih]
      have hlen : (x :: rest).length - keep_last = (rest.length - keep_last) + 1 := by
        simp only [List.length_cons]; omega
      rw [hlen, List.drop_succ_cons]
    · rw [prune_stored, if_neg h]
      have hlen : (x :: rest).length - keep_last = 0 := by
        simp only [List.length_cons]; omega
      rw [hlen, List.drop_zero]

/-- C7: pruning the tracking store to `keep_last = N` removes entries
from the first-inserted end only (the store splits as the dropped oldest
prefix followed by the kept suffix), keeps exactly `min N (length)`
entries - the `N` most recently inserted ones - and keeps everything when
the store held at most `N` entries.  No operation of the store ever
reorders entries on read, so read recency cannot affect this. -/
theorem prune_stored_keeps_most_recent (keep_last : Nat) (l : Stored) :
    prune_stored keep_last l = l.drop (l.length - keep_last) ∧
    l.take (l.length - keep_last) ++ prune_stored keep_last l = l ∧
    (prune_stored keep_last l).length = min keep_last l.length ∧
    (l.length ≤ keep_last → prune_stored keep_last l = l) := by
  have h := prune_stored_drop keep_last l
  refine ⟨h, ?_, ?_, ?_⟩
  · rw [h, List.take_append_drop]
  · rw [h, List.length_drop]; omega
  · intro hle
    rw [h, Nat.sub_eq_zero_of_le hle, List.drop_zero]

/-- Witness for C7: a three-entry store pruned to its two most recent
entries. -/
theorem prune_stored_keeps_most_recent_witness :
    prune_stored 2 [((1, 10), []), ((1, 11), [(2, 20)]), ((1, 12), [])]
      = [((1, 10), []), ((1, 11), [(2, 20)]), ((1, 12), [])].drop
          ([((1, 10), ([] : DestMap)), ((1, 11), [(2, 20)]), ((1, 12), [])].length - 2) ∧
    [((1, 10), ([] : DestMap)), ((1, 11), [(2, 20)]), ((1, 12), [])].take
        ([((1, 10), ([] : DestMap)), ((1, 11), [(2, 20)]), ((1, 12), [])].length - 2)
      ++ prune_stored 2 [((1, 10), []), ((1, 11), [(2, 20)]), ((1, 12), [])]
      = [((1, 10), []), ((1, 11), [(2, 20)]), ((1, 12), [])] ∧
    (prune_stored 2 [((1, 10), []), ((1, 11), [(2, 20)]), ((1, 12), [])]).length
      = min 2 [((1, 10), ([] : DestMap)), ((1, 11), [(2, 20)]), ((1, 12), [])].length ∧
    ([((1, 10), ([] : DestMap)), ((1, 11), [(2, 20)]), ((1, 12), [])].length ≤ 2 →
      prune_stored 2 [((1, 10), []), ((1, 11), [(2, 20)]), ((1, 12), [])]
        = [((1, 10), []), ((1, 11), [(2, 20)]), ((1, 12), [])]) :=
  prune_stored_keeps_most_recent 2
    [((1, 10), []), ((1, 11), [(2, 20)]), ((1, 12), [])]

theorem apply_plugins_append (pre post : List Plugin) (tm : TgcfMessage) :
    apply_plugins (pre ++ post) tm
      = match apply_plugins pre tm with
        | (some tm1, _) => apply_plugins post tm1
        | (none, fs) => (none, fs) := by
  induction pre generalizing tm with
  | nil => simp [apply_plugins]
  | cons p ps ih =>
    cases hp : p tm <;>
      simp [apply_plugins, hp, ih]

/-- A stage pipeline that survives (returns `some`) deletes no staged
files: `tm.clear()` runs inside `apply_plugins` only on the drop path. -/
theorem apply_plugins_ok_no_files (ps : List Plugin) (tm tm1 : TgcfMessage)
    (fs : List String) (h : apply_plugins ps tm = (some tm1, fs)) : fs = [] := by
  induction ps generalizing tm with
  | nil =>
    simp [apply_plugins] at h
    exact h.2
  | cons p ps ih =>
    cases hp : p tm <;> simp [apply_plugins, hp] at h
    · exact ih _ h
    · exact ih _ h

/-- C8: stages run strictly in configured order - the pipeline on
`pre ++ post` runs `pre` first and feeds its surviving message to `post`;
a `Drop` (`None`) result short-circuits the remaining stages and returns
the drop, with the staged resources of the accumulated message cleaned up
(`tm.clear()`); a stage that raises is caught and skipped, the message
continuing through the remaining stages unmodified by that stage. -/
theorem apply_plugins_order_drop_resilience (pre post : List Plugin)
    (q r : Plugin) (tm tm1 tm' : TgcfMessage) (fs : List String) :
    (apply_plugins pre tm = (some tm1, fs) →
      apply_plugins (pre ++ post) tm = apply_plugins post tm1) ∧
    (apply_plugins pre tm = (none, fs) →
      apply_plugins (pre ++ post) tm = (none, fs)) ∧
    (q tm' = .raised →
      apply_plugins (q :: post) tm' = apply_plugins post tm') ∧
    (r tm' = .filtered →
      apply_plugins (r :: post) tm' = (none, tm'.cleared_files)) := by
  refine ⟨fun h => ?_, fun h => ?_, fun h => ?_, fun h => ?_⟩
  · rw [apply_plugins_append, h]
  · rw [apply_plugins_append, h]
  · simp [apply_plugins, h]
  · simp [apply_plugins, h]

/-- The identity stage (a `modify` returning its argument unchanged,
as the base `TgcfPlugin.modify` does). -/
def plugin_ok : Plugin := fun tm => .ok tm

/-- A stage whose `modify` raises on every message. -/
def plugin_raises : Plugin := fun _ => .raised

/-- A stage whose `modify` returns `None` on every message (a filter that
drops everything). -/
def plugin_drops : Plugin := fun _ => .filtered

/-- Witness for C8 on a concrete message carrying a staged file that must
be cleaned up on drop. -/
theorem apply_plugins_order_drop_resilience_witness :
    (apply_plugins [plugin_ok] (TgcfMessage.mk 1 10 none (some "t") none false)
        = (some (TgcfMessage.mk 1 10 none (some "t") none false), []) ∧
     plugin_raises (TgcfMessage.mk 1 10 none (some "t") (some "f") true) = .raised ∧
     plugin_drops (TgcfMessage.mk 1 10 none (some "t") (some "f") true) = .filtered) ∧
    (apply_plugins ([plugin_ok] ++ [plugin_raises])
        (TgcfMessage.mk 1 10 none (some "t") none false)
      = apply_plugins [plugin_raises]
          (TgcfMessage.mk 1 10 none (some "t") none false) ∧
     apply_plugins (plugin_raises :: [plugin_ok])
        (TgcfMessage.mk 1 10 none (some "t") (some "f") true)
      = apply_plugins [plugin_ok]
          (TgcfMessage.mk 1 10 none (some "t") (some "f") true) ∧
     apply_plugins (plugin_drops :: [plugin_ok])
        (TgcfMessage.mk 1 10 none (some "t") (some "f") true)
      = (none, ["f"])) := by
  have h := apply_plugins_order_drop_resilience [plugin_ok] [plugin_raises]
    plugin_raises plugin_drops
    (TgcfMessage.mk 1 10 none (some "t") none false)
    (TgcfMessage.mk 1 10 none (some "t") none false)
    (TgcfMessage.mk 1 10 none (some "t") (some "f") true) []
  refine ⟨⟨rfl, rfl, rfl⟩, h.1 rfl, ?_, ?_⟩
  · have h2 := apply_plugins_order_drop_resilience [] [plugin_ok]
      plugin_raises plugin_drops
      (TgcfMessage.mk 1 10 none (some "t") none false)
      (TgcfMessage.mk 1 10 none (some "t") none false)
      (TgcfMessage.mk 1 10 none (some "t") (some "f") true) []
    exact h2.2.2.1 rfl
  · have h3 := apply_plugins_order_drop_resilience [] [plugin_ok]
      plugin_raises plugin_drops
      (TgcfMessage.mk 1 10 none (some "t") none false)
      (TgcfMessage.mk 1 10 none (some "t") none false)
      (TgcfMessage.mk 1 10 none (some "t") (some "f") true) []
    have h4 := h3.2.2.2 rfl
    rw [h4]
    rfl

theorem countP_map_comp {α β : Type} (p : β → Bool) (f : α → β) (l : List α) :
    (l.map f).countP p = l.countP (fun a => p (f a)) := by
  induction l with
  | nil => rfl
  | cons a l ih => simp [List.countP_cons, ih]

theorem countP_flatMap_pair {α : Type} (p : EditAction → Bool)
    (f g : α → EditAction) (l : List α) :
    ((l.flatMap fun a => [f a, g a]).countP p)
      = (l.countP fun a => p (f a)) + (l.countP fun a => p (g a)) := by
  induction l with
  | nil => rfl
  | cons a l ih =>
    simp only [List.flatMap_cons, List.countP_append, ih, List.countP_cons,
      List.countP_nil]
    omega

theorem countP_const_true {α : Type} (l : List α) :
    l.countP (fun _ => true) = l.length := by
  induction l with
  | nil => rfl
  | cons a l ih => simp [List.countP_cons, ih]

theorem countP_const_false {α : Type} (l : List α) :
    l.countP (fun _ => false) = 0 := by
  induction l with
  | nil => rfl
  | cons a l ih => simp [List.countP_cons, ih]

theorem flatMap_singleton_eq_map {α β : Type} (f : α → β) (l : List α) :
    (l.flatMap fun a => [f a]) = l.map f := by
  induction l with
  | nil => rfl
  | cons a l ih => simp [List.flatMap_cons, ih]

/-- C1 (amended): for an edited message in a watched chat that survives
the pipeline and whose new raw text differs from the delete-on-edit
marker: if its EventUid has a NON-EMPTY tracking entry, the handler
issues exactly one edit per tracked destination copy and no new-message
send; if the EventUid has no tracking entry OR only the empty
pre-registered placeholder (Python `if fwded_msgs:` treats the empty dict
as untracked), it issues exactly one new-message send per configured
destination and no edit. -/
theorem edited_handler_tracked_vs_untracked (from_to : List (Int × List Int))
    (stored : Stored) (marker : Option String) (plugins : List Plugin)
    (message : TgcfMessage) (dest : List Int) (tm : TgcfMessage)
    (hdest : lookupA from_to message.chat_id = some dest)
    (htm : (apply_plugins plugins message).1 = some tm)
    (hmark : marker ≠ message.text) :
    (∀ m, lookupA stored (message.chat_id, message.msg_id) = some m → m ≠ [] →
      edited_message_handler from_to stored marker plugins message
        = m.map (fun dm => EditAction.edit dm.1 dm.2 tm.text) ∧
      countEdits (edited_message_handler from_to stored marker plugins message)
        = m.length ∧
      countSendNew (edited_message_handler from_to stored marker plugins message)
        = 0) ∧
    ((lookupA stored (message.chat_id, message.msg_id) = none ∨
      lookupA stored (message.chat_id, message.msg_id) = some []) →
      edited_message_handler from_to stored marker plugins message
        = dest.map EditAction.send_new ∧
      countSendNew (edited_message_handler from_to stored marker plugins message)
        = dest.length ∧
      countEdits (edited_message_handler from_to stored marker plugins message)
        = 0) := by
  constructor
  · intro m hm hne
    have hacts : edited_message_handler from_to stored marker plugins message
        = m.map (fun dm => EditAction.edit dm.1 dm.2 tm.text) := by
      rw [edited_message_handler, hdest, htm, hm]
      cases m with
      | nil => exact absurd rfl hne
      | cons dm ms =>
        simp only [List.isEmpty_cons, Bool.false_eq_true, if_false]
        have hfun : (fun dm : Int × Int =>
            if marker = message.text then
              [EditAction.delete_dest dm.1 dm.2, EditAction.delete_source]
            else [EditAction.edit dm.1 dm.2 tm.text])
            = fun dm : Int × Int => [EditAction.edit dm.1 dm.2 tm.text] := by
          funext dm
          exact if_neg hmark
        rw [hfun]
        exact flatMap_singleton_eq_map _ _
    refine ⟨hacts, ?_, ?_⟩
    · rw [hacts, countEdits, countP_map_comp]
      exact countP_const_true m
    · rw [hacts, countSendNew, countP_map_comp]
      exact countP_const_false m
  · intro hcase
    have hacts : edited_message_handler from_to stored marker plugins message
        = dest.map EditAction.send_new := by
      rcases hcase with hm | hm <;> rw [edited_message_handler, hdest, htm, hm]
      simp [List.isEmpty_nil]
    refine ⟨hacts, ?_, ?_⟩
    · rw [hacts, countSendNew, countP_map_comp]
      exact countP_const_true dest
    · rw [hacts, countEdits, countP_map_comp]
      exact countP_const_false dest

/-- Witness for the amended C1: a tracked entry with two destination
copies is edited twice with zero sends. -/
theorem edited_handler_tracked_vs_untracked_witness :
    lookupA [((1 : Int), [(2 : Int), 3])] 1 = some [2, 3] ∧
    (apply_plugins [] (TgcfMessage.mk 1 10 none (some "x") none false)).1
      = some (TgcfMessage.mk 1 10 none (some "x") none false) ∧
    (some ".deleteMe" : Option String) ≠ some "x" ∧
    lookupA [(((1 : Int), (10 : Int)), [((2 : Int), (20 : Int)), (3, 30)])]
      (1, 10) = some [(2, 20), (3, 30)] ∧
    edited_message_handler [(1, [2, 3])] [((1, 10), [(2, 20), (3, 30)])]
        (some ".deleteMe") [] (TgcfMessage.mk 1 10 none (some "x") none false)
      = [EditAction.edit 2 20 (some "x"), EditAction.edit 3 30 (some "x")] ∧
    countEdits (edited_message_handler [(1, [2, 3])]
        [((1, 10), [(2, 20), (3, 30)])] (some ".deleteMe") []
        (TgcfMessage.mk 1 10 none (some "x") none false)) = 2 ∧
    countSendNew (edited_message_handler [(1, [2, 3])]
        [((1, 10), [(2, 20), (3, 30)])] (some ".deleteMe") []
        (TgcfMessage.mk 1 10 none (some "x") none false)) = 0 := by
  have h := (edited_handler_tracked_vs_untracked [(1, [2, 3])]
    [((1, 10), [(2, 20), (3, 30)])] (some ".deleteMe") []
    (TgcfMessage.mk 1 10 none (some "x") none false) [2, 3]
    (TgcfMessage.mk 1 10 none (some "x") none false)
    rfl rfl (by decide)).1 [(2, 20), (3, 30)] rfl (by decide)
  exact ⟨rfl, rfl, by decide, rfl, h.1, h.2.1, h.2.2⟩

/-- C1 counterexample: an edited message whose EventUid carries the empty
pre-registered placeholder entry and whose text is not the marker.  The
claim demands zero new-message sends in this case, but the handler
(src/tgcf/live.py line 140, `if fwded_msgs:`) treats the empty dict as
untracked and issues one send per configured destination and zero
edits. -/
theorem edited_handler_placeholder_counterexample :
    lookupA [(((1 : Int), (10 : Int)), ([] : DestMap))] (1, 10) = some [] ∧
    (some ".deleteMe" : Option String) ≠ some "hello" ∧
    edited_message_handler [(1, [2])] [((1, 10), [])] (some ".deleteMe") []
        (TgcfMessage.mk 1 10 none (some "hello") none false)
      = [EditAction.send_new 2] ∧
    countSendNew (edited_message_handler [(1, [2])] [((1, 10), [])]
        (some ".deleteMe") []
        (TgcfMessage.mk 1 10 none (some "hello") none false)) = 1 ∧
    ¬ countSendNew (edited_message_handler [(1, [2])] [((1, 10), [])]
        (some ".deleteMe") []
        (TgcfMessage.mk 1 10 none (some "hello") none false)) = 0 := by
  refine ⟨rfl, by decide, rfl, rfl, by decide⟩

theorem deletes_flatMap_counts (m : DestMap) :
    countDestDeletes (m.flatMap fun dm =>
      [EditAction.delete_dest dm.1 dm.2, EditAction.delete_source]) = m.length ∧
    countSourceDeletes (m.flatMap fun dm =>
      [EditAction.delete_dest dm.1 dm.2, EditAction.delete_source]) = m.length ∧
    countEdits (m.flatMap fun dm =>
      [EditAction.delete_dest dm.1 dm.2, EditAction.delete_source]) = 0 ∧
    countSendNew (m.flatMap fun dm =>
      [EditAction.delete_dest dm.1 dm.2, EditAction.delete_source]) = 0 := by
  induction m with
  | nil => exact ⟨rfl, rfl, rfl, rfl⟩
  | cons dm ms ih =>
    obtain ⟨i1, i2, i3, i4⟩ := ih
    simp only [countDestDeletes, countSourceDeletes, countEdits, countSendNew,
      List.flatMap_cons, List.countP_append, List.countP_cons,
      List.countP_nil, List.length_cons] at i1 i2 i3 i4 ⊢
    simp only [if_true, if_false, Bool.false_eq_true, ite_true, ite_false,
      if_pos trivial]
    omega

/-- C10: when the edited text equals the configured delete-on-edit marker
and the EventUid is tracked with k destination copies, the handler
deletes each destination copy once AND issues a delete of the source
message once per tracked copy (k source deletions in total, one from each
loop iteration at src/tgcf/live.py lines 141-144), and issues no edit and
no new-message send. -/
theorem edited_handler_delete_on_edit (from_to : List (Int × List Int))
    (stored : Stored) (marker : Option String) (plugins : List Plugin)
    (message : TgcfMessage) (dest : List Int) (tm : TgcfMessage)
    (m : DestMap)
    (hdest : lookupA from_to message.chat_id = some dest)
    (htm : (apply_plugins plugins message).1 = some tm)
    (hm : lookupA stored (message.chat_id, message.msg_id) = some m)
    (hne : m ≠ [])
    (hmark : marker = message.text) :
    edited_message_handler from_to stored marker plugins message
      = m.flatMap (fun dm =>
          [EditAction.delete_dest dm.1 dm.2, EditAction.delete_source]) ∧
    countDestDeletes (edited_message_handler from_to stored marker plugins message)
      = m.length ∧
    countSourceDeletes (edited_message_handler from_to stored marker plugins message)
      = m.length ∧
    countEdits (edited_message_handler from_to stored marker plugins message)
      = 0 ∧
    countSendNew (edited_message_handler from_to stored marker plugins message)
      = 0 := by
  have hacts : edited_message_handler from_to stored marker plugins message
      = m.flatMap (fun dm =>
          [EditAction.delete_dest dm.1 dm.2, EditAction.delete_source]) := by
    rw [edited_message_handler, hdest, htm, hm]
    cases m with
    | nil => exact absurd rfl hne
    | cons dm ms =>
      simp only [List.isEmpty_cons, Bool.false_eq_true, if_false]
      simp only [if_pos hmark]
  rw [hacts]
  have hc := deletes_flatMap_counts m
  exact ⟨rfl, hc.1, hc.2.1, hc.2.2.1, hc.2.2.2⟩

/-- Witness for C10: two tracked copies, marker matched: two destination
deletions, two source deletions, no edit, no send. -/
theorem edited_handler_delete_on_edit_witness :
    lookupA [(((1 : Int), (10 : Int)), [((2 : Int), (20 : Int)), (3, 30)])]
      (1, 10) = some [(2, 20), (3, 30)] ∧
    edited_message_handler [(1, [2, 3])] [((1, 10), [(2, 20), (3, 30)])]
        (some ".deleteMe") []
        (TgcfMessage.mk 1 10 none (some ".deleteMe") none false)
      = [EditAction.delete_dest 2 20, EditAction.delete_source,
         EditAction.delete_dest 3 30, EditAction.delete_source] ∧
    countDestDeletes (edited_message_handler [(1, [2, 3])]
        [((1, 10), [(2, 20), (3, 30)])] (some ".deleteMe") []
        (TgcfMessage.mk 1 10 none (some ".deleteMe") none false)) = 2 ∧
    countSourceDeletes (edited_message_handler [(1, [2, 3])]
        [((1, 10), [(2, 20), (3, 30)])] (some ".deleteMe") []
        (TgcfMessage.mk 1 10 none (some ".deleteMe") none false)) = 2 ∧
    countEdits (edited_message_handler [(1, [2, 3])]
        [((1, 10), [(2, 20), (3, 30)])] (some ".deleteMe") []
        (TgcfMessage.mk 1 10 none (some ".deleteMe") none false)) = 0 := by
  have h := edited_handler_delete_on_edit [(1, [2, 3])]
    [((1, 10), [(2, 20), (3, 30)])] (some ".deleteMe") []
    (TgcfMessage.mk 1 10 none (some ".deleteMe") none false) [2, 3]
    (TgcfMessage.mk 1 10 none (some ".deleteMe") none false)
    [(2, 20), (3, 30)] rfl rfl rfl (by decide) rfl
  exact ⟨rfl, h.1.trans (by decide), h.2.1, h.2.2.1, h.2.2.2.1⟩

theorem load_from_to_go_error (resolve : String → Option Int)
    (forwards : List Forward) (f : Forward) (e : String)
    (huse : f.use_this = true) (hblank : source_is_blank f.source = false)
    (herr : get_id resolve f.source = .error e) :
    ∀ acc, f ∈ forwards →
      ∃ e', load_from_to_go resolve forwards acc = .error e' := by
  induction forwards with
  | nil => intro acc h; cases h
  | cons g rest ih =>
    intro acc hf
    cases hu : g.use_this with
    | false =>
      rcases List.mem_cons.mp hf with hfg | hfr
      · rw [hfg, hu] at huse; cases huse
      · simpa [load_from_to_go, hu] using ih acc hfr
    | true =>
      cases hb : source_is_blank g.source with
      | true =>
        rcases List.mem_cons.mp hf with hfg | hfr
        · rw [hfg, hb] at hblank; cases hblank
        · simpa [load_from_to_go, hu, hb] using ih acc hfr
      | false =>
        cases hget : get_id resolve g.source with
        | error e2 =>
          exact ⟨e2, by
            simp only [load_from_to_go, hu, hb, hget, Bool.not_true,
              Bool.false_eq_true, if_false]⟩
        | ok src =>
          cases hmap : g.dest.mapM (get_id resolve) with
          | error e2 =>
            exact ⟨e2, by
              simp only [load_from_to_go, hu, hb, hget, hmap, Bool.not_true,
                Bool.false_eq_true, if_false]⟩
          | ok ds =>
            rcases List.mem_cons.mp hf with hfg | hfr
            · rw [hfg] at herr; rw [herr] at hget; cases hget
            · have hrec := ih (insertA acc src ds) hfr
              simpa only [load_from_to_go, hu, hb, hget, hmap, Bool.not_true,
                Bool.false_eq_true, if_false] using hrec

/-- C3 (amended): `load_from_to` skips a rule only when `use_this` is
false or its source is a blank string; when any enabled, non-blank rule's
source fails to resolve, the failure propagates out of `load_from_to`
(there is no per-rule try/except), so the whole resolution call errors
out instead of skipping just that rule and proceeding with the rest. -/
theorem load_from_to_abort_on_failure (resolve : String → Option Int)
    (forwards : List Forward) (f : Forward) (e : String)
    (hf : f ∈ forwards) (huse : f.use_this = true)
    (hblank : source_is_blank f.source = false)
    (herr : get_id resolve f.source = .error e) :
    (∃ e', load_from_to resolve forwards = .error e') ∧
    (∀ acc g rest,
      (g.use_this = false ∨ source_is_blank g.source = true) →
      load_from_to_go resolve (g :: rest) acc
        = load_from_to_go resolve rest acc) := by
  constructor
  · exact load_from_to_go_error resolve forwards f e huse hblank herr [] hf
  · intro acc g rest hskip
    rcases hskip with h | h
    · simp [load_from_to_go, h]
    · cases hu : g.use_this with
      | false => simp [load_from_to_go, hu]
      | true => simp [load_from_to_go, hu, h]

/-- An entity resolver that fails every lookup (`client.get_entity`
raising for every username). -/
def resolve_none : String → Option Int := fun _ => none

/-- An enabled rule whose source is an unresolvable username. -/
def forward_bad : Forward :=
  { use_this := true, source := .s "alice", dest := [.i 2],
    offset := 0, end_id := none }

/-- An enabled rule whose source is a directly usable numeric id. -/
def forward_good : Forward :=
  { use_this := true, source := .i 42, dest := [.i 2],
    offset := 0, end_id := none }

/-- Witness for the amended C3: with the first rule unresolvable, the
whole `load_from_to` call errors out. -/
theorem load_from_to_abort_on_failure_witness :
    forward_bad ∈ [forward_bad, forward_good] ∧
    forward_bad.use_this = true ∧
    source_is_blank forward_bad.source = false ∧
    get_id resolve_none forward_bad.source = .error "alice" ∧
    (∃ e', load_from_to resolve_none [forward_bad, forward_good]
        = .error e') :=
  ⟨List.mem_cons_self _ _, rfl, rfl, rfl,
    (load_from_to_abort_on_failure resolve_none [forward_bad, forward_good]
      forward_bad "alice" (List.mem_cons_self _ _) rfl rfl rfl).1⟩

/-- C3 counterexample: rule `forward_good` is perfectly resolvable, yet
because `forward_bad` (an earlier rule) fails resolution, `load_from_to`
raises and no mapping at all is produced - resolution does NOT proceed
for the remaining rules, contradicting the claim that only the failing
rule is skipped for the session. -/
theorem load_from_to_counterexample :
    forward_good.use_this = true ∧
    get_id resolve_none forward_good.source = .ok 42 ∧
    get_id resolve_none forward_bad.source = .error "alice" ∧
    load_from_to resolve_none [forward_bad, forward_good]
      = .error "alice" := by
  refine ⟨rfl, rfl, rfl, rfl⟩

theorem past_step_skip_guard (env : TransportEnv) (chat : Int)
    (dests : List Int) (e : Option Int) (s : LoopState) (m : PastMsg)
    (h : (end_truthy e && decide (s.last_id > end_val e)) = true) :
    past_step env chat dests e s m = s := by
  rw [past_step, if_pos h]

theorem past_step_skip_service (env : TransportEnv) (chat : Int)
    (dests : List Int) (e : Option Int) (s : LoopState) (m : PastMsg)
    (hg : (end_truthy e && decide (s.last_id > end_val e)) = false)
    (h : m.service = true) :
    past_step env chat dests e s m = s := by
  rw [past_step, if_neg (by simp [hg]), if_pos h]

theorem past_step_skip_dropped (env : TransportEnv) (chat : Int)
    (dests : List Int) (e : Option Int) (s : LoopState) (m : PastMsg)
    (hg : (end_truthy e && decide (s.last_id > end_val e)) = false)
    (hs : m.service = false) (h : m.dropped = true) :
    past_step env chat dests e s m = s := by
  rw [past_step, if_neg (by simp [hg]), if_neg (by simp [hs]), if_pos h]

theorem past_step_process_fields (env : TransportEnv) (chat : Int)
    (dests : List Int) (e : Option Int) (s : LoopState) (m : PastMsg)
    (hg : (end_truthy e && decide (s.last_id > end_val e)) = false)
    (hs : m.service = false) (hd : m.dropped = false) :
    (past_step env chat dests e s m).processed = s.processed ++ [m.id] ∧
    (past_step env chat dests e s m).offset_trace = s.offset_trace ++ [m.id] ∧
    (past_step env chat dests e s m).last_id = m.id ∧
    (past_step env chat dests e s m).offset = m.id ∧
    (past_step env chat dests e s m).sleeps = s.sleeps := by
  rw [past_step, if_neg (by rw [hg]; exact Bool.false_ne_true),
    if_neg (by rw [hs]; exact Bool.false_ne_true),
    if_neg (by rw [hd]; exact Bool.false_ne_true)]
  cases hgr : m.grouped_id with
  | none =>
    by_cases hf : s.buffer.should_flush none = true
    · simp [hf]
    · simp [hf]
  | some g =>
    by_cases hf : s.buffer.should_flush (some g) = true
    · simp [hf]
    · simp [hf]

theorem past_run_spec (env : TransportEnv) (chat : Int) (dests : List Int)
    (e : Option Int) :
    ∀ (history : List PastMsg) (s : LoopState),
      (history.foldl (past_step env chat dests e) s).processed
        = s.processed ++ spec_processed e s.last_id history ∧
      (history.foldl (past_step env chat dests e) s).offset_trace
        = s.offset_trace ++ spec_processed e s.last_id history ∧
      (history.foldl (past_step env chat dests e) s).last_id
        = spec_last e s.last_id history ∧
      (history.foldl (past_step env chat dests e) s).sleeps = s.sleeps := by
  intro history
  induction history with
  | nil => intro s; simp [spec_processed, spec_last]
  | cons m rest ih =>
    intro s
    rw [List.foldl_cons]
    cases hg : (end_truthy e && decide (s.last_id > end_val e)) with
    | true =>
      rw [past_step_skip_guard env chat dests e s m hg]
      have := ih s
      rw [spec_processed, spec_last, if_pos hg, if_pos hg]
      exact this
    | false =>
      have hgneg : ¬((end_truthy e && decide (s.last_id > end_val e)) = true) := by
        rw [hg]; exact Bool.false_ne_true
      cases hs : m.service with
      | true =>
        have hsd : (m.service || m.dropped) = true := by rw [hs]; rfl
        rw [past_step_skip_service env chat dests e s m hg hs]
        have := ih s
        rw [spec_processed, spec_last, if_neg hgneg, if_neg hgneg,
          if_pos hsd, if_pos hsd]
        exact this
      | false =>
        cases hd : m.dropped with
        | true =>
          have hsd : (m.service || m.dropped) = true := by rw [hs, hd]; rfl
          rw [past_step_skip_dropped env chat dests e s m hg hs hd]
          have := ih s
          rw [spec_processed, spec_last, if_neg hgneg, if_neg hgneg,
            if_pos hsd, if_pos hsd]
          exact this
        | false =>
          have hsd : ¬((m.service || m.dropped) = true) := by
            rw [hs, hd]; exact Bool.false_ne_true
          obtain ⟨p1, p2, p3, _, p5⟩ :=
            past_step_process_fields env chat dests e s m hg hs hd
          obtain ⟨i1, i2, i3, i4⟩ := ih (past_step env chat dests e s m)
          rw [spec_processed, spec_last, if_neg hgneg, if_neg hgneg,
            if_neg hsd, if_neg hsd]
          refine ⟨?_, ?_, ?_, ?_⟩
          · rw [i1, p1, p3, List.append_assoc]
            rfl
          · rw [i2, p2, p3, List.append_assoc]
            rfl
          · rw [i3, p3]
          · rw [i4, p5]

theorem spec_processed_sublist (e : Option Int) :
    ∀ (history : List PastMsg) (prev : Int),
      (spec_processed e prev history).Sublist (history.map PastMsg.id) := by
  intro history
  induction history with
  | nil => intro prev; simp [spec_processed]
  | cons m rest ih =>
    intro prev
    rw [spec_processed, List.map_cons]
    by_cases h1 : (end_truthy e && decide (prev > end_val e)) = true
    · rw [if_pos h1]
      exact (ih prev).cons m.id
    · rw [if_neg h1]
      by_cases h2 : (m.service || m.dropped) = true
      · rw [if_pos h2]
        exact (ih prev).cons m.id
      · rw [if_neg h2]
        exact (ih m.id).cons₂ m.id

theorem spec_processed_mem (e : Option Int) :
    ∀ (history : List PastMsg) (prev : Int) (a : Int),
      a ∈ spec_processed e prev history →
      ∃ x ∈ history, x.service = false ∧ x.dropped = false ∧ x.id = a := by
  intro history
  induction history with
  | nil => intro prev a h; simp [spec_processed] at h
  | cons m rest ih =>
    intro prev a h
    rw [spec_processed] at h
    by_cases h1 : (end_truthy e && decide (prev > end_val e)) = true
    · rw [if_pos h1] at h
      obtain ⟨x, hx, hprop⟩ := ih prev a h
      exact ⟨x, List.mem_cons_of_mem m hx, hprop⟩
    · rw [if_neg h1] at h
      by_cases h2 : (m.service || m.dropped) = true
      · rw [if_pos h2] at h
        obtain ⟨x, hx, hprop⟩ := ih prev a h
        exact ⟨x, List.mem_cons_of_mem m hx, hprop⟩
      · rw [if_neg h2] at h
        simp only [Bool.or_eq_true, not_or, Bool.not_eq_true] at h2
        rcases List.mem_cons.mp h with rfl | htail
        · exact ⟨m, List.mem_cons_self m rest, h2.1, h2.2, rfl⟩
        · obtain ⟨x, hx, hprop⟩ := ih m.id a htail
          exact ⟨x, List.mem_cons_of_mem m hx, hprop⟩

theorem forward_job_rule_processed (env : TransportEnv) (chat : Int)
    (dests : List Int) (e : Option Int) (offset0 : Int)
    (history : List PastMsg) :
    (forward_job_rule env chat dests e offset0 history).processed
      = spec_processed e 0 history ∧
    (forward_job_rule env chat dests e offset0 history).offset_trace
      = spec_processed e 0 history ∧
    (forward_job_rule env chat dests e offset0 history).sleeps = [] := by
  obtain ⟨h1, h2, _, h4⟩ :=
    past_run_spec env chat dests e history (LoopState.start offset0)
  simp only [LoopState.start, List.nil_append] at h1 h2 h4
  refine ⟨?_, ?_, ?_⟩ <;> simp only [forward_job_rule]
  · exact h1
  · exact h2
  · exact h4

/-- C4 (amended): for an enabled rule replayed over an ascending
(oldest-first) history, the loop processes exactly the messages described
by `spec_processed`: service and pipeline-dropped entries are skipped,
and - because the end-bound guard at past.py line 213 compares `last_id`
(the id of the PREVIOUS processed message) with `forward.end` - a message
is skipped for the end bound only after some earlier message with id
above the bound has already been processed, so the first message beyond
the bound is itself still processed.  After each processed unit the
persisted offset equals the id just processed (`offset_trace` equals the
processed ids, in order), and the persisted offsets are monotonically
non-decreasing. -/
theorem forward_job_replay_characterization (env : TransportEnv)
    (chat : Int) (dests : List Int) (e : Option Int) (offset0 : Int)
    (history : List PastMsg)
    (hsort : history.Pairwise (fun a b => a.id < b.id)) :
    (forward_job_rule env chat dests e offset0 history).processed
      = spec_processed e 0 history ∧
    (forward_job_rule env chat dests e offset0 history).offset_trace
      = (forward_job_rule env chat dests e offset0 history).processed ∧
    (∀ x ∈ history, x.service = true →
      x.id ∉ (forward_job_rule env chat dests e offset0 history).processed) ∧
    List.Chain' (· ≤ ·)
      (forward_job_rule env chat dests e offset0 history).offset_trace := by
  obtain ⟨h1, h2, _⟩ := forward_job_rule_processed env chat dests e offset0 history
  have hids : (history.map PastMsg.id).Pairwise (· < ·) :=
    List.pairwise_map.mpr hsort
  refine ⟨h1, h2.trans h1.symm, ?_, ?_⟩
  · intro x hx hserv hmem
    rw [h1] at hmem
    obtain ⟨y, hy, hyserv, _, hyid⟩ := spec_processed_mem e history 0 x.id hmem
    have hnodup : (history.map PastMsg.id).Nodup :=
      hids.imp (fun hab => ne_of_lt hab)
    have hxy : y = x := List.inj_on_of_nodup_map hnodup hy hx hyid
    rw [hxy] at hyserv
    rw [hserv] at hyserv
    cases hyserv
  · rw [h2]
    have hsub := spec_processed_sublist e history 0
    have hp : (spec_processed e 0 history).Pairwise (· < ·) :=
      hids.sublist hsub
    exact List.Pairwise.chain' (hp.imp (fun hab => le_of_lt hab))

/-- A transport that succeeds every call. -/
def env_ok : TransportEnv :=
  { send := fun i _ => .ok (i + 100), forward_batch := fun ids _ => some ids }

/-- An ordinary content message with the given id. -/
def pm (i : Int) : PastMsg :=
  { id := i, service := false, grouped_id := none, dropped := false }

/-- A service message with the given id. -/
def pm_service (i : Int) : PastMsg :=
  { id := i, service := true, grouped_id := none, dropped := false }

/-- Witness for the amended C4: history `[service 2, 3, 7, 9]` with end
bound 5 - the service entry is skipped, 3 is processed, 7 (the first id
beyond the bound) is still processed, 9 is skipped. -/
theorem forward_job_replay_characterization_witness :
    ([pm_service 2, pm 3, pm 7, pm 9].Pairwise (fun a b => a.id < b.id)) ∧
    (forward_job_rule env_ok 1 [2] (some 5) 0
        [pm_service 2, pm 3, pm 7, pm 9]).processed
      = spec_processed (some 5) 0 [pm_service 2, pm 3, pm 7, pm 9] ∧
    (forward_job_rule env_ok 1 [2] (some 5) 0
        [pm_service 2, pm 3, pm 7, pm 9]).offset_trace
      = (forward_job_rule env_ok 1 [2] (some 5) 0
          [pm_service 2, pm 3, pm 7, pm 9]).processed ∧
    List.Chain' (· ≤ ·)
      (forward_job_rule env_ok 1 [2] (some 5) 0
        [pm_service 2, pm 3, pm 7, pm 9]).offset_trace ∧
    spec_processed (some 5) 0 [pm_service 2, pm 3, pm 7, pm 9] = [3, 7] := by
  have h := forward_job_replay_characterization env_ok 1 [2] (some 5) 0
    [pm_service 2, pm 3, pm 7, pm 9] (by decide)
  exact ⟨by decide, h.1, h.2.1, h.2.2.2, by decide⟩

theorem mem_eraseA {α : Type} [DecidableEq α] {β : Type}
    (l : List (α × β)) (k : α) (p : α × β) (h : p ∈ eraseA l k) : p ∈ l := by
  induction l with
  | nil => cases h
  | cons q rest ih =>
    by_cases hq : q.1 = k
    · rw [eraseA, if_pos hq] at h
      exact List.mem_cons_of_mem q (ih h)
    · rw [eraseA, if_neg hq] at h
      rcases List.mem_cons.mp h with rfl | h2
      · exact List.mem_cons_self _ _
      · exact List.mem_cons_of_mem q (ih h2)

theorem mem_insertA {α : Type} [DecidableEq α] {β : Type}
    (l : List (α × β)) (k : α) (v : β) (p : α × β)
    (h : p ∈ insertA l k v) : p = (k, v) ∨ p ∈ l := by
  rw [insertA] at h
  rcases List.mem_cons.mp h with rfl | h2
  · exact Or.inl rfl
  · exact Or.inr (mem_eraseA l k p h2)

theorem fsm_step_lookup_ne (env : TransportEnv) (uid : EventUid) (tmid : Int)
    (st : Stored) (dest : Int) (uid' : EventUid) (h : uid ≠ uid') :
    lookupA (forward_single_message_step env uid tmid st dest) uid'
      = lookupA st uid' := by
  rw [forward_single_message_step]
  cases env.send tmid dest with
  | ok fid => exact lookupA_insertA_ne _ _ _ _ h
  | flood n => rfl
  | err => rfl

theorem fsm_fold_lookup_ne (env : TransportEnv) (uid : EventUid) (tmid : Int)
    (uid' : EventUid) (h : uid ≠ uid') :
    ∀ (dests : List Int) (st : Stored),
      lookupA (dests.foldl (forward_single_message_step env uid tmid) st) uid'
        = lookupA st uid' := by
  intro dests
  induction dests with
  | nil => intro st; rfl
  | cons dd rest ih =>
    intro st
    rw [List.foldl_cons, ih, fsm_step_lookup_ne env uid tmid st dd uid' h]

theorem forward_single_message_lookup_ne (env : TransportEnv) (chat : Int)
    (m : PastMsg) (dests : List Int) (stored : Stored) (uid' : EventUid)
    (h : uid' ≠ (chat, m.id)) :
    lookupA (forward_single_message env chat m dests stored) uid'
      = lookupA stored uid' := by
  rw [forward_single_message,
    fsm_fold_lookup_ne env (chat, m.id) m.id uid' (Ne.symm h)]
  by_cases h0 : (lookupA stored (chat, m.id)).isNone = true
  · rw [if_pos h0, lookupA_insertA_ne _ _ _ _ (Ne.symm h)]
  · rw [if_neg h0]

theorem fsm_step_mem (env : TransportEnv) (uid : EventUid) (tmid : Int)
    (st : Stored) (dest : Int) (d mm : Int)
    (h : (d, mm) ∈
      (lookupA (forward_single_message_step env uid tmid st dest) uid).getD []) :
    (d, mm) ∈ (lookupA st uid).getD [] ∨ env.send tmid d = .ok mm := by
  rw [forward_single_message_step] at h
  cases hs : env.send tmid dest with
  | ok fid =>
    rw [hs, lookupA_insertA_self] at h
    simp only [Option.getD_some] at h
    rcases mem_insertA _ _ _ _ h with heq | hmem
    · right
      have hd : d = dest := congrArg Prod.fst heq
      have hm : mm = fid := congrArg Prod.snd heq
      rw [hd, hm, hs]
    · exact Or.inl hmem
  | flood nsec => rw [hs] at h; exact Or.inl h
  | err => rw [hs] at h; exact Or.inl h

theorem fsm_fold_mem (env : TransportEnv) (uid : EventUid) (tmid : Int)
    (d mm : Int) :
    ∀ (dests : List Int) (st : Stored),
      (d, mm) ∈
        (lookupA (dests.foldl (forward_single_message_step env uid tmid) st)
          uid).getD [] →
      (d, mm) ∈ (lookupA st uid).getD [] ∨ env.send tmid d = .ok mm := by
  intro dests
  induction dests with
  | nil => intro st h; exact Or.inl h
  | cons dd rest ih =>
    intro st h
    rw [List.foldl_cons] at h
    rcases ih _ h with h2 | h2
    · exact fsm_step_mem env uid tmid st dd d mm h2
    · exact Or.inr h2

theorem forward_single_message_mem (env : TransportEnv) (chat : Int)
    (m : PastMsg) (dests : List Int) (stored : Stored) (d mm : Int)
    (h : (d, mm) ∈
      (lookupA (forward_single_message env chat m dests stored)
        (chat, m.id)).getD []) :
    (d, mm) ∈ (lookupA stored (chat, m.id)).getD [] ∨
      env.send m.id d = .ok mm := by
  rw [forward_single_message] at h
  rcases fsm_fold_mem env (chat, m.id) m.id d mm dests _ h with h2 | h2
  · by_cases h0 : (lookupA stored (chat, m.id)).isNone = true
    · rw [if_pos h0, lookupA_insertA_self] at h2
      simp only [Option.getD_some] at h2
      cases h2
    · rw [if_neg h0] at h2
      exact Or.inl h2
  · exact Or.inr h2

theorem past_step_ungrouped_eq (env : TransportEnv) (chat : Int)
    (dests : List Int) (e : Option Int) (s : LoopState) (m : PastMsg)
    (hg : (end_truthy e && decide (s.last_id > end_val e)) = false)
    (hs : m.service = false) (hd : m.dropped = false)
    (hgr : m.grouped_id = none) (hbuf : s.buffer = PastAlbumBuffer.init) :
    past_step env chat dests e s m
      = { s with stored := forward_single_message env chat m dests s.stored,
                 forwarded_units := s.forwarded_units ++ [[m.id]],
                 last_id := m.id, offset := m.id,
                 offset_trace := s.offset_trace ++ [m.id],
                 processed := s.processed ++ [m.id] } := by
  rw [past_step, if_neg (by rw [hg]; exact Bool.false_ne_true),
    if_neg (by rw [hs]; exact Bool.false_ne_true),
    if_neg (by rw [hd]; exact Bool.false_ne_true), hgr,
    if_neg (show ¬(s.buffer.should_flush none = true) by
      rw [hbuf]; exact Bool.false_ne_true)]

/-- Run-level invariant for a replay over ungrouped history: the album
buffer never fills, and no pair `(d, _)` can appear in the tracking entry
of `(chat, mid0)` when `send mid0 d` never succeeds - a rate-limited
destination is simply skipped by the per-destination exception handler. -/
theorem past_run_flood_stored (env : TransportEnv) (chat : Int)
    (dests : List Int) (e : Option Int) (mid0 : Int) (d : Int)
    (hok : ∀ mm, env.send mid0 d ≠ .ok mm) :
    ∀ (history : List PastMsg) (s : LoopState),
      (∀ x ∈ history, x.grouped_id = none) →
      s.buffer = PastAlbumBuffer.init →
      (∀ mm, (d, mm) ∉ (lookupA s.stored (chat, mid0)).getD []) →
      ((history.foldl (past_step env chat dests e) s).buffer
          = PastAlbumBuffer.init ∧
       ∀ mm, (d, mm) ∉
        (lookupA ((history.foldl (past_step env chat dests e) s).stored)
          (chat, mid0)).getD []) := by
  intro history
  induction history with
  | nil => intro s hall hbuf hst; exact ⟨hbuf, hst⟩
  | cons m rest ih =>
    intro s hall hbuf hst
    rw [List.foldl_cons]
    have hallrest : ∀ x ∈ rest, x.grouped_id = none :=
      fun x hx => hall x (List.mem_cons_of_mem m hx)
    have hgr : m.grouped_id = none := hall m (List.mem_cons_self m rest)
    cases hg : (end_truthy e && decide (s.last_id > end_val e)) with
    | true =>
      rw [past_step_skip_guard env chat dests e s m hg]
      exact ih s hallrest hbuf hst
    | false =>
      cases hs : m.service with
      | true =>
        rw [past_step_skip_service env chat dests e s m hg hs]
        exact ih s hallrest hbuf hst
      | false =>
        cases hd : m.dropped with
        | true =>
          rw [past_step_skip_dropped env chat dests e s m hg hs hd]
          exact ih s hallrest hbuf hst
        | false =>
          rw [past_step_ungrouped_eq env chat dests e s m hg hs hd hgr hbuf]
          refine ih _ hallrest hbuf ?_
          intro mm hmem
          have hmem' : (d, mm) ∈
              (lookupA (forward_single_message env chat m dests s.stored)
                (chat, mid0)).getD [] := hmem
          by_cases hid : m.id = mid0
          · rw [← hid] at hmem'
            rcases forward_single_message_mem env chat m dests s.stored d mm
                hmem' with h2 | h2
            · rw [hid] at h2
              exact hst mm h2
            · rw [hid] at h2
              exact hok mm h2
          · have hne : ((chat, mid0) : EventUid) ≠ (chat, m.id) := by
              intro hh
              exact hid (congrArg Prod.snd hh).symm
            rw [forward_single_message_lookup_ne env chat m dests s.stored
              _ hne] at hmem'
            exact hst mm hmem'

/-- C2 (amended): in past mode, a FloodWaitError raised by a destination
send inside `forward_single_message` is swallowed by the per-destination
`except Exception` handler (past.py lines 130-131): the rate-limited
destination is skipped (its id is never recorded in the unit's tracking
entry), the controller never sleeps (the outer `except FloodWaitError`
arm of `forward_job` is unreachable from sends), the unit is processed
exactly once (never retried), and the rule's offset IS advanced to the
unit's id. -/
theorem forward_job_flood_no_retry (env : TransportEnv) (chat : Int)
    (dests : List Int) (e : Option Int) (offset0 : Int)
    (history : List PastMsg) (m : PastMsg) (d : Int) (n : Nat)
    (hall : ∀ x ∈ history, x.grouped_id = none)
    (hsort : history.Pairwise (fun a b => a.id < b.id))
    (hm : m ∈ history) (hd : d ∈ dests)
    (hfl : env.send m.id d = .flood n)
    (hproc : m.id ∈ (forward_job_rule env chat dests e offset0 history).processed) :
    (forward_job_rule env chat dests e offset0 history).sleeps = [] ∧
    (forward_job_rule env chat dests e offset0 history).processed.count m.id
      = 1 ∧
    m.id ∈ (forward_job_rule env chat dests e offset0 history).offset_trace ∧
    ∀ mm, (d, mm) ∉
      (lookupA (forward_job_rule env chat dests e offset0 history).stored
        (chat, m.id)).getD [] := by
  obtain ⟨h1, h2, h3⟩ :=
    forward_job_rule_processed env chat dests e offset0 history
  have hok : ∀ mm, env.send m.id d ≠ .ok mm := by
    intro mm hc
    rw [hfl] at hc
    cases hc
  have hrun := past_run_flood_stored env chat dests e m.id d hok history
    (LoopState.start offset0) hall rfl
    (by intro mm hmem; simp [LoopState.start, lookupA] at hmem)
  refine ⟨h3, ?_, ?_, ?_⟩
  · rw [h1] at hproc ⊢
    have hids : (history.map PastMsg.id).Pairwise (· < ·) :=
      List.pairwise_map.mpr hsort
    have hnodup : (history.map PastMsg.id).Nodup :=
      hids.imp (fun hab => ne_of_lt hab)
    have hspecnodup : (spec_processed e 0 history).Nodup :=
      hnodup.sublist (spec_processed_sublist e history 0)
    exact List.count_eq_one_of_mem hspecnodup hproc
  · rw [h2, ← h1]
    exact hproc
  · have hstored : (forward_job_rule env chat dests e offset0 history).stored
        = (history.foldl (past_step env chat dests e)
            (LoopState.start offset0)).stored := by
      simp only [forward_job_rule]
      rw [hrun.1]
      rfl
    rw [hstored]
    exact hrun.2

/-- A transport whose every send is rate-limited with a 42-second wait. -/
def env_flood : TransportEnv :=
  { send := fun _ _ => .flood 42, forward_batch := fun ids _ => some ids }

/-- Witness for the amended C2: a single-message history whose only send
rate-limits; the run never sleeps, processes the unit once, advances the
offset to it, and records nothing for the flooded destination. -/
theorem forward_job_flood_no_retry_witness :
    ([pm 3].Pairwise (fun a b => a.id < b.id)) ∧
    env_flood.send 3 2 = .flood 42 ∧
    (3 : Int) ∈ (forward_job_rule env_flood 1 [2] none 0 [pm 3]).processed ∧
    ((forward_job_rule env_flood 1 [2] none 0 [pm 3]).sleeps = [] ∧
     (forward_job_rule env_flood 1 [2] none 0 [pm 3]).processed.count 3 = 1 ∧
     (3 : Int) ∈ (forward_job_rule env_flood 1 [2] none 0 [pm 3]).offset_trace) ∧
    lookupA (forward_job_rule env_flood 1 [2] none 0 [pm 3]).stored (1, 3)
      = some [] := by
  have h := forward_job_flood_no_retry env_flood 1 [2] none 0 [pm 3] (pm 3) 2 42
    (by decide) (by decide) (List.mem_cons_self _ _) (List.mem_cons_self _ _)
    rfl (by decide)
  exact ⟨by decide, rfl, by decide, ⟨h.1, h.2.1, h.2.2.1⟩, by decide⟩

/-- C2 counterexample: the claim says a rate-limited unit makes the
controller suspend for the signaled duration and retry the unit without
advancing the offset.  With every send rate-limited (42 s), the run
records zero sleeps, zero successful transmissions for the unit (its
tracking entry stays empty), yet advances and persists the offset to the
unit's id and never revisits it. -/
theorem forward_job_flood_counterexample :
    env_flood.send 3 2 = .flood 42 ∧
    (forward_job_rule env_flood 1 [2] none 0 [pm 3]).sleeps = [] ∧
    (forward_job_rule env_flood 1 [2] none 0 [pm 3]).offset = 3 ∧
    (forward_job_rule env_flood 1 [2] none 0 [pm 3]).offset_trace = [3] ∧
    (forward_job_rule env_flood 1 [2] none 0 [pm 3]).processed = [3] ∧
    lookupA (forward_job_rule env_flood 1 [2] none 0 [pm 3]).stored (1, 3)
      = some [] := by
  refine ⟨rfl, by decide, by decide, by decide, by decide, by decide⟩

/-- C4 counterexample: with end bound 5 over history `[3, 7]`, message 7
lies beyond the bound yet IS processed (the guard compares the previous
`last_id`, 3, against the bound), and the persisted offset ends at 7 > 5.
This contradicts the claim that no message with id beyond the end bound
is processed. -/
theorem forward_job_end_bound_counterexample :
    end_truthy (some 5) = true ∧
    (7 : Int) > end_val (some 5) ∧
    (forward_job_rule env_ok 1 [2] (some 5) 0 [pm 3, pm 7]).processed
      = [3, 7] ∧
    (7 : Int) ∈ (forward_job_rule env_ok 1 [2] (some 5) 0 [pm 3, pm 7]).processed ∧
    (forward_job_rule env_ok 1 [2] (some 5) 0 [pm 3, pm 7]).offset = 7 := by
  refine ⟨rfl, by decide, by decide, by decide, by decide⟩

/-- The timer-state consistency invariant: every pending timer task is
the one whose handle is currently stored for its chat, and each chat has
at most one pending timer. -/
def timers_consistent (s : TimerSys) : Prop :=
  (∀ q ∈ s.pending, lookupA s.flush_tasks q.1 = some q.2) ∧
  ∀ c, pendingCount s c ≤ 1

theorem cancel_mapped_none (s : TimerSys)
    (hcons : ∀ q ∈ s.pending, lookupA s.flush_tasks q.1 = some q.2)
    (c : Int) (tid : Nat) (hmap : lookupA s.flush_tasks c = some tid) :
    ∀ q ∈ cancelTask s.pending c tid, q.1 ≠ c := by
  intro q hq hqc
  have hmem : q ∈ s.pending := (List.mem_filter.mp hq).1
  have hcond := (List.mem_filter.mp hq).2
  have hl := hcons q hmem
  rw [hqc, hmap] at hl
  have htid : q.2 = tid := (Option.some.inj hl).symm
  rw [cancelTask] at hq
  simp [hqc, htid] at hcond

theorem unmapped_no_pending (s : TimerSys)
    (hcons : ∀ q ∈ s.pending, lookupA s.flush_tasks q.1 = some q.2)
    (c : Int) (hmap : lookupA s.flush_tasks c = none) :
    ∀ q ∈ s.pending, q.1 ≠ c := by
  intro q hq hqc
  have hl := hcons q hq
  rw [hqc, hmap] at hl
  cases hl

theorem countP_zero_of_none (l : List (Int × Nat)) (c : Int)
    (h : ∀ q ∈ l, q.1 ≠ c) :
    l.countP (fun q => decide (q.1 = c)) = 0 := by
  rw [List.countP_eq_zero]
  intro a ha
  simp [h a ha]

theorem timer_step_arm_consistent (s : TimerSys) (c : Int)
    (hinv : timers_consistent s) :
    timers_consistent (timer_step s (.arm c)) := by
  obtain ⟨hcons, hcount⟩ := hinv
  cases hmap : lookupA s.flush_tasks c with
  | some tid =>
    have hstep : timer_step s (.arm c)
        = { flush_tasks := insertA s.flush_tasks c s.next_id,
            pending := cancelTask s.pending c tid ++ [(c, s.next_id)],
            next_id := s.next_id + 1 } := by
      rw [timer_step, hmap]
    have hnone := cancel_mapped_none s hcons c tid hmap
    rw [hstep]
    constructor
    · intro q hq
      rcases List.mem_append.mp hq with h1 | h1
      · have hqp : q ∈ s.pending := (List.mem_filter.mp h1).1
        have hne : c ≠ q.1 := fun hh => hnone q h1 hh.symm
        show lookupA (insertA s.flush_tasks c s.next_id) q.1 = some q.2
        rw [lookupA_insertA_ne s.flush_tasks c q.1 s.next_id hne]
        exact hcons q hqp
      · rw [List.mem_singleton.mp h1]
        exact lookupA_insertA_self _ _ _
    · intro c'
      show (cancelTask s.pending c tid ++ [(c, s.next_id)]).countP
        (fun q => decide (q.1 = c')) ≤ 1
      rw [List.countP_append]
      by_cases hc : c = c'
      · have h0 : (cancelTask s.pending c tid).countP
            (fun q => decide (q.1 = c')) = 0 :=
          countP_zero_of_none _ _ (fun q hq hqc => hnone q hq (hqc.trans hc.symm))
        rw [h0]
        simp [List.countP_cons, hc]
      · have h1 : ([(c, s.next_id)]).countP (fun q => decide (q.1 = c')) = 0 := by
          simp [List.countP_cons, hc]
        rw [h1]
        have hle : (cancelTask s.pending c tid).countP
            (fun q => decide (q.1 = c')) ≤
            s.pending.countP (fun q => decide (q.1 = c')) :=
          (List.filter_sublist _).countP_le _
        have := hcount c'
        rw [pendingCount] at this
        omega
  | none =>
    have hstep : timer_step s (.arm c)
        = { flush_tasks := insertA s.flush_tasks c s.next_id,
            pending := s.pending ++ [(c, s.next_id)],
            next_id := s.next_id + 1 } := by
      rw [timer_step, hmap]
    have hnone := unmapped_no_pending s hcons c hmap
    rw [hstep]
    constructor
    · intro q hq
      rcases List.mem_append.mp hq with h1 | h1
      · have hne : c ≠ q.1 := fun hh => hnone q h1 hh.symm
        show lookupA (insertA s.flush_tasks c s.next_id) q.1 = some q.2
        rw [lookupA_insertA_ne s.flush_tasks c q.1 s.next_id hne]
        exact hcons q h1
      · rw [List.mem_singleton.mp h1]
        exact lookupA_insertA_self _ _ _
    · intro c'
      show (s.pending ++ [(c, s.next_id)]).countP
        (fun q => decide (q.1 = c')) ≤ 1
      rw [List.countP_append]
      by_cases hc : c = c'
      · have h0 : s.pending.countP (fun q => decide (q.1 = c')) = 0 :=
          countP_zero_of_none _ _ (fun q hq hqc => hnone q hq (hqc.trans hc.symm))
        rw [h0]
        simp [List.countP_cons, hc]
      · have h1 : ([(c, s.next_id)]).countP (fun q => decide (q.1 = c')) = 0 := by
          simp [List.countP_cons, hc]
        rw [h1]
        have := hcount c'
        rw [pendingCount] at this
        omega

theorem timer_step_cancel_consistent (s : TimerSys) (c : Int)
    (hinv : timers_consistent s) :
    timers_consistent (timer_step s (.cancel_pending c)) := by
  obtain ⟨hcons, hcount⟩ := hinv
  cases hmap : lookupA s.flush_tasks c with
  | none =>
    have hstep : timer_step s (.cancel_pending c) = s := by
      rw [timer_step, hmap]
    rw [hstep]
    exact ⟨hcons, hcount⟩
  | some tid =>
    have hstep : timer_step s (.cancel_pending c)
        = { s with pending := cancelTask s.pending c tid } := by
      rw [timer_step, hmap]
    rw [hstep]
    constructor
    · intro q hq
      exact hcons q ((List.mem_filter.mp hq).1)
    · intro c'
      have hle : (cancelTask s.pending c tid).countP
          (fun q => decide (q.1 = c')) ≤
          s.pending.countP (fun q => decide (q.1 = c')) :=
        (List.filter_sublist _).countP_le _
      have := hcount c'
      rw [pendingCount] at this
      show (cancelTask s.pending c tid).countP (fun q => decide (q.1 = c')) ≤ 1
      omega

theorem timer_pending_after_cancel (s : TimerSys) (c : Int)
    (hcons : ∀ q ∈ s.pending, lookupA s.flush_tasks q.1 = some q.2) :
    ∀ q ∈ (timer_step s (.cancel_pending c)).pending, q.1 ≠ c := by
  cases hmap : lookupA s.flush_tasks c with
  | none =>
    have hstep : timer_step s (.cancel_pending c) = s := by
      rw [timer_step, hmap]
    rw [hstep]
    exact unmapped_no_pending s hcons c hmap
  | some tid =>
    have hstep : timer_step s (.cancel_pending c)
        = { s with pending := cancelTask s.pending c tid } := by
      rw [timer_step, hmap]
    rw [hstep]
    exact cancel_mapped_none s hcons c tid hmap

theorem timer_flush_tasks_after_cancel (s : TimerSys) (c : Int) :
    (timer_step s (.cancel_pending c)).flush_tasks = s.flush_tasks := by
  cases hmap : lookupA s.flush_tasks c with
  | none => rw [timer_step, hmap]
  | some tid => rw [timer_step, hmap]

theorem timer_step_flush_consistent (s : TimerSys) (c : Int)
    (hinv : timers_consistent s) :
    timers_consistent
      (timer_step (timer_step s (.cancel_pending c)) (.flush_del c)) := by
  obtain ⟨hcons1, hcount1⟩ := timer_step_cancel_consistent s c hinv
  have hnoc := timer_pending_after_cancel s c hinv.1
  constructor
  · intro q hq
    have hq' : q ∈ (timer_step s (.cancel_pending c)).pending := hq
    have hne : c ≠ q.1 := fun hh => hnoc q hq' hh.symm
    show lookupA (eraseA (timer_step s (.cancel_pending c)).flush_tasks c) q.1
      = some q.2
    rw [lookupA_eraseA_ne _ c q.1 hne]
    exact hcons1 q hq'
  · intro c'
    exact hcount1 c'

theorem timer_step_fire_consistent (s : TimerSys) (c : Int) (tid : Nat)
    (hinv : timers_consistent s) :
    timers_consistent (timer_step s (.fire c tid)) := by
  obtain ⟨hcons, hcount⟩ := hinv
  by_cases hmem : (c, tid) ∈ s.pending
  · have hstep : timer_step s (.fire c tid)
        = { s with pending := cancelTask s.pending c tid,
                   flush_tasks := eraseA s.flush_tasks c } := by
      rw [timer_step, if_pos hmem]
    have hmap : lookupA s.flush_tasks c = some tid := hcons (c, tid) hmem
    have hnone := cancel_mapped_none s hcons c tid hmap
    rw [hstep]
    constructor
    · intro q hq
      have hne : c ≠ q.1 := fun hh => hnone q hq hh.symm
      show lookupA (eraseA s.flush_tasks c) q.1 = some q.2
      rw [lookupA_eraseA_ne _ c q.1 hne]
      exact hcons q ((List.mem_filter.mp hq).1)
    · intro c'
      have hle : (cancelTask s.pending c tid).countP
          (fun q => decide (q.1 = c')) ≤
          s.pending.countP (fun q => decide (q.1 = c')) :=
        (List.filter_sublist _).countP_le _
      have := hcount c'
      rw [pendingCount] at this
      show (cancelTask s.pending c tid).countP (fun q => decide (q.1 = c')) ≤ 1
      omega
  · have hstep : timer_step s (.fire c tid) = s := by
      rw [timer_step, if_neg hmem]
    rw [hstep]
    exact ⟨hcons, hcount⟩

theorem timers_consistent_start : timers_consistent TimerSys.start := by
  constructor
  · intro q hq
    cases hq
  · intro c
    show (0 : Nat) ≤ 1
    omega

theorem coarse_run_consistent (ops : List CoarseTimerOp) :
    ∀ s : TimerSys, timers_consistent s →
      timers_consistent (ops.foldl coarse_timer_step s) := by
  induction ops with
  | nil => intro s h; exact h
  | cons op rest ih =>
    intro s h
    rw [List.foldl_cons]
    refine ih _ ?_
    cases op with
    | arm c => exact timer_step_arm_consistent s c h
    | flush c => exact timer_step_flush_consistent s c h
    | fire c tid => exact timer_step_fire_consistent s c tid h

/-- C9 (amended): the cancel-before-arm discipline is implemented - both
`_schedule_album_flush` and the forced-flush path cancel the stored task
handle before proceeding - and it does guarantee at most one pending
debounce timer per chat at every instant PROVIDED each forced flush's
cancel (live.py lines 96-97) and its table-entry deletion (lines 37-38)
run without an interleaved same-chat arming, i.e. over every sequence of
the coarse atomic operations `arm`/`flush`/`fire`.  (Under a same-chat
interleaving at the `await` inside `_flush_album` the guarantee fails;
see the counterexample.) -/
theorem timer_at_most_one_pending_atomic (ops : List CoarseTimerOp)
    (c : Int) :
    pendingCount (ops.foldl coarse_timer_step TimerSys.start) c ≤ 1 :=
  (coarse_run_consistent ops TimerSys.start timers_consistent_start).2 c

/-- An interleaved schedule of four handler executions for chat 1, each
contiguous span a no-await section of src/tgcf/live.py:
handler A for a first grouped message arms timer 0; handler B for a
group-changing message cancels timer 0 and suspends inside
`_flush_album`'s sends; handler C for a new grouped message arms timer 1
(cancelling the already-dead handle 0); handler B resumes and deletes the
table entry - which now names timer 1 - without cancelling it; handler D
for another grouped message finds no table entry and arms timer 2. -/
def race_trace : List TimerOp :=
  [.arm 1, .cancel_pending 1, .arm 1, .flush_del 1, .arm 1]

/-- C9 counterexample: after the interleaving `race_trace`, chat 1 has
TWO pending debounce timers (tasks 1 and 2) at the same instant, so the
claimed at-most-one-pending-timer invariant does not hold at every
instant, even though every arm and every forced flush cancelled the
handle stored in `ctx.flush_tasks` first. -/
theorem timer_race_counterexample :
    (race_trace.foldl timer_step TimerSys.start).pending
      = [(1, 1), (1, 2)] ∧
    pendingCount (race_trace.foldl timer_step TimerSys.start) 1 = 2 ∧
    ¬ pendingCount (race_trace.foldl timer_step TimerSys.start) 1 ≤ 1 := by
  refine ⟨by decide, by decide, by decide⟩

end Tgcf
